import Mathlib

set_option maxHeartbeats 1000000

/-!
Shallow embedding of the agent/prompt resolution core of the repository:
`codex-rs/core/src/agent.rs`, `codex-rs/core/src/custom_prompts.rs` and the
query-filtering logic of `codex-rs/tui/src/bottom_pane/agent_popup.rs`.

Modelling conventions:
* Filesystem paths are lists of components (`List String`); `Path::join`
  appends components and `Path::starts_with` is component-wise list prefix.
* All effects (current dir, home lookup, file existence, file reads, TOML
  parsing, canonicalization, directory listing) are fields of an explicit
  oracle record `Env`; the spec treats parsing and byte reading as black
  boxes, and canonicalization is "resolve against the real filesystem".
* Rust `HashMap` is modelled by an association list (`AMap`) whose only
  semantically relevant observation is `AMap.get?`; iteration in the source
  only ever inserts key-by-key, which folds over the list model.
* String operations are re-implemented over `List Char` by structural
  recursion so that concrete runs reduce inside the kernel.  Unicode case
  mapping and Unicode whitespace are modelled at ASCII granularity, which is
  exact for `to_ascii_lowercase`/`eq_ignore_ascii_case` and agrees with the
  Rust functions on all ASCII data.
-/

/-- Boolean `is_err` on `Except` (absent from this toolchain's core). -/
def exceptIsErr {ε α : Type} : Except ε α → Bool
  | .ok _ => false
  | .error _ => true

/-- Decidable equality for `Except`, needed to evaluate concrete runs. -/
instance {ε α : Type} [DecidableEq ε] [DecidableEq α] : DecidableEq (Except ε α) := fun x y =>
  match x, y with
  | .ok a, .ok b =>
    if h : a = b then isTrue (by rw [h]) else isFalse (fun hh => h (by injection hh))
  | .error a, .error b =>
    if h : a = b then isTrue (by rw [h]) else isFalse (fun hh => h (by injection hh))
  | .ok _, .error _ => isFalse (fun hh => Except.noConfusion hh)
  | .error _, .ok _ => isFalse (fun hh => Except.noConfusion hh)

/-- First-biased choice on `Option` (the value-level `or`). -/
def orO {α : Type} (a b : Option α) : Option α :=
  match a with
  | some x => some x
  | none => b

@[simp]
theorem orO_some {α : Type} (x : α) (b : Option α) : orO (some x) b = some x := rfl

@[simp]
theorem orO_none {α : Type} (b : Option α) : orO none b = b := rfl

/-- ASCII lower-casing, one character at a time (models Rust
`str::to_ascii_lowercase`; `Char.toLower` only affects A–Z). -/
def strToLower (s : String) : String := ⟨s.data.map Char.toLower⟩

/-- Case-insensitive ASCII comparison (models Rust `eq_ignore_ascii_case`). -/
def eqIgnoreAsciiCase (a b : String) : Bool := strToLower a == strToLower b

/-- Whitespace trimming on both ends (models Rust `str::trim`). -/
def strTrim (s : String) : String :=
  ⟨((s.data.dropWhile Char.isWhitespace).reverse.dropWhile Char.isWhitespace).reverse⟩

/-- Models Rust `str::starts_with` for a literal pattern. -/
def strStartsWith (s pat : String) : Bool := pat.data.isPrefixOf s.data

/-- Models Rust `&str[n..]` / `strip_prefix` remainders: drop `n` characters. -/
def strDrop (s : String) (n : Nat) : String := ⟨s.data.drop n⟩

/-- Models Rust `trim_start_matches([':', ' '])`: drop every leading `':'`/`' '`. -/
def trimStartColonSpace (s : String) : String :=
  ⟨s.data.dropWhile (fun c => c == ':' || c == ' ')⟩

/-- Contiguous-segment membership on lists (`needle` occurs inside `hay`). -/
def listContainsSeg (needle : List Char) : List Char → Bool
  | [] => needle.isEmpty
  | c :: rest => needle.isPrefixOf (c :: rest) || listContainsSeg needle rest

/-- Models Rust `str::contains` for a string pattern (substring test). -/
def strContains (s pat : String) : Bool := listContainsSeg pat.data s.data

/-- Split a path string on `/` into non-empty components (models how
`PathBuf::from`/`Path::join` decompose a path string). -/
def pathCompsAux (acc : List Char) : List Char → List String
  | [] => [⟨acc.reverse⟩]
  | c :: rest =>
    if c = '/' then ⟨acc.reverse⟩ :: pathCompsAux [] rest
    else pathCompsAux (c :: acc) rest

def pathComps (s : String) : List String :=
  (pathCompsAux [] s.data).filter (fun t => t != "")

/-- Index of the last `'.'` strictly after position 0 of a file name
(the split point used by Rust `Path::file_stem`/`Path::extension`). -/
def lastDotIdx (cs : List Char) : Option Nat :=
  ((cs.enum.filter (fun p => p.2 == '.' && decide (0 < p.1))).map (fun p => p.1)).getLast?

/-- Models the Rust `file_stem`/`extension` split of a file name. -/
def splitFileName (s : String) : String × Option String :=
  match lastDotIdx s.data with
  | none => (s, none)
  | some i => (⟨s.data.take i⟩, some ⟨s.data.drop (i + 1)⟩)

def stemOf (s : String) : String := (splitFileName s).1

def extensionOf (s : String) : Option String := (splitFileName s).2

/-- Boolean lexicographic order on character lists. -/
def listLexLe : List Char → List Char → Bool
  | [], _ => true
  | _ :: _, [] => false
  | a :: as, b :: bs => if a = b then listLexLe as bs else decide (a < b)

/-- Models Rust `str::cmp` at the `≤` level (lexicographic; byte order and
code-point order agree because UTF-8 is order-preserving). -/
def strLe (a b : String) : Bool := listLexLe a.data b.data

/-- Insertion of one element into a sorted list. -/
def insertSorted {α : Type} (le : α → α → Bool) (x : α) : List α → List α
  | [] => [x]
  | y :: ys => if le x y then x :: y :: ys else y :: insertSorted le x ys

/-- Comparison sort (models Rust `sort_by` with a total comparator; stable). -/
def sortBy {α : Type} (le : α → α → Bool) : List α → List α
  | [] => []
  | x :: xs => insertSorted le x (sortBy le xs)

/-- Association-list model of Rust `HashMap<String, _>`; the semantically
relevant observation is the key→value mapping `AMap.get?`. -/
@[reducible] def AMap (α : Type) : Type := List (String × α)

def AMap.empty {α : Type} : AMap α := []

def AMap.get? {α : Type} (m : AMap α) (k : String) : Option α :=
  (List.find? (fun p => p.1 == k) m).map (fun p => p.2)

def AMap.insert {α : Type} (m : AMap α) (k : String) (v : α) : AMap α :=
  (k, v) :: List.filter (fun p => p.1 != k) m

/-- Models `HashMap::entry(k).or_insert(v)`: insert only when absent. -/
def AMap.orInsert {α : Type} (m : AMap α) (k : String) (v : α) : AMap α :=
  match AMap.get? m k with
  | some _ => m
  | none => AMap.insert m k v

def AMap.keys {α : Type} (m : AMap α) : List String := m.map (fun p => p.1)

def AMap.values {α : Type} (m : AMap α) : List α := m.map (fun p => p.2)

/-- Fold of `insert` over a key-value list (a `for` loop of inserts). -/
def AMap.insertAll {α : Type} (base : AMap α) (l : List (String × α)) : AMap α :=
  l.foldl (fun acc kv => AMap.insert acc kv.1 kv.2) base

/-- Fold of `or_insert` over a key-value list. -/
def AMap.orInsertAll {α : Type} (base : AMap α) (l : List (String × α)) : AMap α :=
  l.foldl (fun acc kv => AMap.orInsert acc kv.1 kv.2) base

def AMap.NodupKeys {α : Type} (m : AMap α) : Prop := (AMap.keys m).Nodup

/-- Modelled from the spec: `reasoning_effort` is "one of a small fixed set
(e.g. Low/Medium/High)"; the concrete enum
(`codex_protocol::config_types::ReasoningEffort`) lives outside `src/`. -/
inductive ReasoningEffortConfig : Type where
  | low
  | medium
  | high
deriving DecidableEq, Repr

/-- Modelled from the spec: "SandboxPolicy — variant type with members:
`ReadOnly`, `WorkspaceWrite{network_access: bool}`, `DangerFullAccess`"; the
concrete type (`crate::protocol::SandboxPolicy`) lives outside `src/`, and
only the `network_access` field is observable through this module. -/
inductive SandboxPolicy : Type where
  | ReadOnly : SandboxPolicy
  | WorkspaceWrite (network_access : Bool) : SandboxPolicy
  | DangerFullAccess : SandboxPolicy
deriving DecidableEq, Repr

/-- Modelled from the spec: §4.2's table sends `workspace-write` to
`WorkspaceWrite{network_access=false}`; the constructor defined outside
`src/` therefore yields that value. -/
def SandboxPolicy.new_workspace_write_policy : SandboxPolicy :=
  SandboxPolicy.WorkspaceWrite false

/-- Configuration for a single agent (`AgentConfig` in `agent.rs`). -/
structure AgentConfig : Type where
  prompt : Option String
  prompt_file : Option String
  tools : Option (List String)
  model : Option String
  reasoning_effort : Option ReasoningEffortConfig
  permissions : Option String
deriving DecidableEq, Repr

/-- A discovered prompt document (`CustomPrompt` in `codex_protocol`). -/
structure CustomPrompt : Type where
  name : String
  path : List String
  content : String
deriving DecidableEq, Repr

/-- Resolved agent summary handed to the UI (`crate::protocol::AgentInfo`). -/
structure AgentInfo : Type where
  name : String
  description : String
  is_builtin : Bool
deriving DecidableEq, Repr

/-- One row of the TUI popup (`GenericDisplayRow`). -/
structure GenericDisplayRow : Type where
  name : String
  match_indices : Option (List Nat)
  is_current : Bool
  description : Option String
deriving DecidableEq, Repr

/-- One directory entry as seen by `read_dir`. -/
structure DirEntry : Type where
  fileName : String
  isFile : Bool
deriving DecidableEq, Repr

/-- Oracle record for every effect the embedded code performs: current
directory, the `HOME`/`USERPROFILE` environment lookup, `dirs::home_dir()`,
`Path::exists`, `read_to_string`, TOML parsing, `Path::canonicalize` and
`read_dir`.  Paths are component lists. -/
structure Env : Type where
  cwd : List String
  homeEnv : Option (List String)
  dirsHome : Option (List String)
  pathExists : List String → Bool
  readFile : List String → Option String
  parseToml : String → Option (List (String × AgentConfig))
  canonicalize : List String → Option (List String)
  readDir : List String → Option (List DirEntry)

/-- Source `parse_permissions_policy` from `agent.rs`. -/
def parse_permissions_policy (value : String) : Except String SandboxPolicy :=
  let normalized := strToLower (strTrim value)
  if normalized == "read-only" || normalized == "readonly" then
    .ok SandboxPolicy.ReadOnly
  else if normalized == "danger-full-access" || normalized == "dangerfullaccess" then
    .ok SandboxPolicy.DangerFullAccess
  else if normalized == "workspace-write" || normalized == "workspacewrite" then
    .ok SandboxPolicy.new_workspace_write_policy
  else if normalized == "workspace-write+network" || normalized == "workspace-write-network"
      || normalized == "workspace-write:network" || normalized == "workspacewrite+network" then
    .ok (match SandboxPolicy.new_workspace_write_policy with
      | SandboxPolicy.WorkspaceWrite _ => SandboxPolicy.WorkspaceWrite true
      | p => p)
  else
    .error ("unknown permissions value '" ++ normalized ++ "'")

/-- Source `AgentConfig::validate`. -/
def AgentConfig.validate (c : AgentConfig) : Except String Unit :=
  if c.prompt.isNone && c.prompt_file.isNone then
    .error "Agent configuration must have either 'prompt' or 'prompt_file'"
  else if c.prompt.isSome && c.prompt_file.isSome then
    .error "Agent configuration should have either 'prompt' or 'prompt_file', not both"
  else
    .ok ()

/-- Source `AgentConfig::permissions_policy`. -/
def AgentConfig.permissions_policy (c : AgentConfig) : Except String (Option SandboxPolicy) :=
  match c.permissions with
  | none => .ok none
  | some raw =>
    let trimmed := strTrim raw
    if trimmed == "" || eqIgnoreAsciiCase trimmed "inherit" then
      .ok none
    else
      match parse_permissions_policy trimmed with
      | .ok p => .ok (some p)
      | .error e => .error ("invalid permissions override '" ++ trimmed ++ "': " ++ e)

/-- Source `AgentConfig::model_override`. -/
def AgentConfig.model_override (c : AgentConfig) : Option String :=
  c.model.bind (fun m =>
    let trimmed := strTrim m
    if trimmed == "" then none else some trimmed)

/-- Source `AgentConfig::reasoning_effort_override`. -/
def AgentConfig.reasoning_effort_override (c : AgentConfig) : Option ReasoningEffortConfig :=
  c.reasoning_effort

/-- Registry of available agents (`AgentRegistry` in `agent.rs`). -/
structure AgentRegistry : Type where
  agents : AMap AgentConfig
  agents_dir : Option (List String)

/-- Source `AgentRegistry::validate_prompt_path`: compose the candidate, canonicalize
it, and require containment in the base directory or the personal
`~/.codex` directory. -/
def AgentRegistry.validate_prompt_path (env : Env) (base_dir : List String)
    (prompt_file : String) : Except String (List String) :=
  let path :=
    if strStartsWith prompt_file "/" then pathComps prompt_file
    else base_dir ++ pathComps prompt_file
  match env.canonicalize path with
  | none =>
    .error "Security error: Prompt file must be within project .codex or ~/.codex directory"
  | some canonical =>
    match env.dirsHome with
    | none => .error "Cannot determine home directory"
    | some home =>
      let home_codex := home ++ [".codex"]
      let base_canonical := (env.canonicalize base_dir).getD base_dir
      if !(base_canonical.isPrefixOf canonical) && !(home_codex.isPrefixOf canonical) then
        .error "Security error: Prompt file must be within project .codex or ~/.codex directory"
      else
        .ok canonical

/-- The built-in `general` seed entry inserted by `AgentRegistry::new`. -/
def generalSeedConfig : AgentConfig :=
  { prompt := some "You are a helpful AI assistant. Complete the given task efficiently and accurately."
  , prompt_file := none
  , tools := none
  , model := none
  , reasoning_effort := none
  , permissions := none }

/-- The per-entry normalization performed inside `load_agents_from` after
`validate()` succeeds: resolve `prompt_file` through the path guard (best
effort), trim `model` (empty ⇒ absent), clear invalid `permissions`. -/
def processConfig (env : Env) (root : List String) (config : AgentConfig) : AgentConfig :=
  let config :=
    match config.prompt_file with
    | some prompt_file =>
      match AgentRegistry.validate_prompt_path env root prompt_file with
      | .ok safe_path =>
        match env.readFile safe_path with
        | some prompt => { config with prompt := some prompt }
        | none => config
      | .error _ => config
    | none => config
  let config :=
    match config.model with
    | some m =>
      if strTrim m == "" then { config with model := none }
      else { config with model := some (strTrim m) }
    | none => config
  if config.permissions.isSome && exceptIsErr (AgentConfig.permissions_policy config) then
    { config with permissions := none }
  else config

/-- Source `load_agents_from` (the local fn inside `AgentRegistry::new`): read and
parse `<root>/agents.toml`; any whole-file failure yields the empty map;
entries failing `validate()` are dropped; surviving entries are normalized
by `processConfig` and collected into a map. -/
def load_agents_from (env : Env) (root : List String) : AMap AgentConfig :=
  let path := root ++ ["agents.toml"]
  if env.pathExists path then
    match env.readFile path with
    | none => AMap.empty
    | some content =>
      match env.parseToml content with
      | none => AMap.empty
      | some parsed =>
        AMap.insertAll AMap.empty
          (parsed.filterMap (fun kv =>
            if (AgentConfig.validate kv.2).isOk then some (kv.1, processConfig env root kv.2)
            else none))
  else AMap.empty

/-- Source `AgentRegistry::get_agents_directory`: `$HOME`/`$USERPROFILE` + `.codex`. -/
def AgentRegistry.get_agents_directory (env : Env) : Option (List String) :=
  env.homeEnv.map (fun home => home ++ [".codex"])

/-- Source `AgentRegistry::new`: seed with `general`, load project then personal
`agents.toml`, merge with project precedence, and write the merged entries
over the seeded map. -/
def AgentRegistry.new (env : Env) : AgentRegistry :=
  let agents := AMap.insert AMap.empty "general" generalSeedConfig
  let project_root := env.cwd ++ [".codex"]
  let home_root := AgentRegistry.get_agents_directory env
  let merged := AMap.insertAll AMap.empty (load_agents_from env project_root)
  let merged :=
    match home_root with
    | some home => AMap.orInsertAll merged (load_agents_from env home)
    | none => merged
  let agents_dir := if env.pathExists project_root then some project_root else home_root
  let agents := AMap.insertAll agents merged
  { agents := agents, agents_dir := agents_dir }

/-- Source `AgentRegistry::get_agent`. -/
def AgentRegistry.get_agent (r : AgentRegistry) (name : String) : Option AgentConfig :=
  AMap.get? r.agents name

/-- Source `AgentRegistry::get_system_prompt`. -/
def AgentRegistry.get_system_prompt (r : AgentRegistry) (agent_name : String) : String :=
  (((AMap.get? r.agents agent_name).orElse (fun _ => AMap.get? r.agents "general")).bind
      (fun config => config.prompt)).getD "You are a helpful AI assistant."

/-- Source `AgentRegistry::can_spawn_agents`. -/
def AgentRegistry.can_spawn_agents (metadata : AMap String) : Bool :=
  !(AMap.get? metadata "is_agent").isSome

/-- Source `AgentRegistry::mark_as_agent_context`. -/
def AgentRegistry.mark_as_agent_context (metadata : AMap String) : AMap String :=
  AMap.insert metadata "is_agent" "true"

/-- The per-entry step of `discover_prompts_in_excluding`: keep regular
files with a case-insensitive `md` extension whose stem is not excluded and
whose content reads as text. -/
def promptOfEntry (env : Env) (dir : List String) (exclude : List String)
    (entry : DirEntry) : Option CustomPrompt :=
  if entry.isFile then
    let path := dir ++ [entry.fileName]
    match extensionOf entry.fileName with
    | none => none
    | some ext =>
      if eqIgnoreAsciiCase ext "md" then
        let name := stemOf entry.fileName
        if exclude.contains name then none
        else
          match env.readFile path with
          | none => none
          | some content => some { name := name, path := path, content := content }
      else none
  else none

/-- Source `discover_prompts_in_excluding` from `custom_prompts.rs`. -/
def discover_prompts_in_excluding (env : Env) (dir : List String)
    (exclude : List String) : List CustomPrompt :=
  match env.readDir dir with
  | none => []
  | some entries =>
    sortBy (fun a b => strLe a.name b.name) (entries.filterMap (promptOfEntry env dir exclude))

/-- Source `discover_prompts_in` (no exclusions). -/
def discover_prompts_in (env : Env) (dir : List String) : List CustomPrompt :=
  discover_prompts_in_excluding env dir []

/-- Source `project_prompts_dir`. -/
def project_prompts_dir (root : List String) : List String :=
  root ++ [".codex", "prompts"]

/-- Source `discover_project_and_personal_prompts`: project prompts inserted first,
personal prompts only for absent names, values sorted by name. -/
def discover_project_and_personal_prompts (env : Env) (project_root : List String)
    (exclude : List String) (personal_dir : Option (List String)) : List CustomPrompt :=
  let project_dir := project_prompts_dir project_root
  let by_name := AMap.insertAll AMap.empty
    ((discover_prompts_in_excluding env project_dir exclude).map (fun p => (p.name, p)))
  let by_name :=
    match personal_dir with
    | some dir =>
      AMap.orInsertAll by_name
        ((discover_prompts_in_excluding env dir exclude).map (fun p => (p.name, p)))
    | none => by_name
  sortBy (fun a b => strLe a.name b.name) (AMap.values by_name)

/-- Source `highlight_indices` from `agent_popup.rs`. -/
def highlight_indices (name : String) (query_lower : String) : Option (List Nat) :=
  if query_lower == "" then none
  else
    let name_lower := strToLower name
    let indices :=
      ((name_lower.data.enum).filter (fun p => query_lower.data.contains p.2)).map
        (fun p => p.1)
    if indices.isEmpty then none else some indices

/-- The row computation inside `AgentPopup::set_query`: lower-case the query,
strip an `agent` prefix and any leading `':'`/`' '`, then either list all
agents (empty or missing remainder) or filter by case-insensitive substring
match on the name; rows are sorted by name. -/
def set_query_rows (query : String) (agents : List AgentInfo) : List GenericDisplayRow :=
  let q_lower := strToLower query
  let rows :=
    if strStartsWith q_lower "agent" then
      let rest := trimStartColonSpace (strDrop q_lower 5)
      if rest == "" then
        agents.map (fun a =>
          { name := a.name, match_indices := none, is_current := false
          , description := some a.description })
      else
        (agents.filter (fun a => strContains (strToLower a.name) rest)).map (fun a =>
          { name := a.name, match_indices := highlight_indices a.name rest
          , is_current := false, description := some a.description })
    else
      agents.map (fun a =>
        { name := a.name, match_indices := none, is_current := false
        , description := some a.description })
  sortBy (fun a b => strLe a.name b.name) rows

/-- Claim-side characterization of the path guard, following the spec's
words (refinement reference, compared with the source translation above):
accept exactly when the canonical candidate is equal to or a descendant of
the canonical form of `base_dir` or of the canonical form of the personal
`~/.codex` root. -/
def validate_prompt_path_claim (env : Env) (base_dir : List String)
    (prompt_file : String) : Bool :=
  let path :=
    if strStartsWith prompt_file "/" then pathComps prompt_file
    else base_dir ++ pathComps prompt_file
  match env.canonicalize path with
  | none => false
  | some canonical =>
    let baseOk :=
      match env.canonicalize base_dir with
      | some bc => bc.isPrefixOf canonical
      | none => false
    let homeOk :=
      match env.dirsHome.bind (fun home => env.canonicalize (home ++ [".codex"])) with
      | some hc => hc.isPrefixOf canonical
      | none => false
    baseOk || homeOk

/-! Concrete environments and configurations used to evaluate the model on
explicit inputs. -/

/-- An environment whose home directory is reached through a symlink:
`/home/link` resolves to `/home/real`, so the canonical form of the personal
`~/.codex` root differs from its literal spelling. -/
def envSymlinkHome : Env :=
  { cwd := ["pr"]
  , homeEnv := some ["home", "link"]
  , dirsHome := some ["home", "link"]
  , pathExists := fun _ => false
  , readFile := fun _ => none
  , parseToml := fun _ => none
  , canonicalize := fun p =>
      if p == ["home", "link", ".codex", "p.md"] then some ["home", "real", ".codex", "p.md"]
      else if p == ["home", "link", ".codex"] then some ["home", "real", ".codex"]
      else if p == ["pr", ".codex"] then some ["pr", ".codex"]
      else none
  , readDir := fun _ => none }

/-- A personal-root agent definition named `general`. -/
def cfgPersonalGeneral : AgentConfig :=
  { prompt := some "personal general", prompt_file := none, tools := none
  , model := none, reasoning_effort := none, permissions := none }

/-- An environment with no project `agents.toml` and a personal
`agents.toml` defining only `general`. -/
def envPersonalGeneral : Env :=
  { cwd := ["proj"]
  , homeEnv := some ["home"]
  , dirsHome := some ["home"]
  , pathExists := fun p => p == ["home", ".codex", "agents.toml"]
  , readFile := fun p => if p == ["home", ".codex", "agents.toml"] then some "t" else none
  , parseToml := fun s => if s == "t" then some [("general", cfgPersonalGeneral)] else none
  , canonicalize := fun _ => none
  , readDir := fun _ => none }

/-- An agent entry whose `prompt_file` never resolved, leaving `prompt`
absent. -/
def cfgPromptless : AgentConfig :=
  { prompt := none, prompt_file := some "p.md", tools := none, model := none
  , reasoning_effort := none, permissions := none }

/-- A `general` entry with prompt `G`. -/
def cfgGeneralG : AgentConfig :=
  { prompt := some "G", prompt_file := none, tools := none, model := none
  , reasoning_effort := none, permissions := none }

/-- A registry holding a promptless agent `x` beside a `general` whose
prompt is set. -/
def regPromptless : AgentRegistry :=
  { agents := [("x", cfgPromptless), ("general", cfgGeneralG)], agents_dir := none }

/-- A valid inline-prompt entry. -/
def cfgInlineGood : AgentConfig :=
  { prompt := some "Good agent.", prompt_file := none, tools := none, model := none
  , reasoning_effort := none, permissions := none }

/-- An invalid entry carrying both `prompt` and `prompt_file`. -/
def cfgBothBad : AgentConfig :=
  { prompt := some "Bad.", prompt_file := some "x.md", tools := none, model := none
  , reasoning_effort := none, permissions := none }

/-- An environment whose `agents.toml` under root `r` parses to one valid
and one invalid entry. -/
def envGranular : Env :=
  { cwd := ["proj"]
  , homeEnv := none
  , dirsHome := none
  , pathExists := fun p => p == ["r", "agents.toml"]
  , readFile := fun p => if p == ["r", "agents.toml"] then some "t" else none
  , parseToml := fun s =>
      if s == "t" then some [("good", cfgInlineGood), ("bad", cfgBothBad)] else none
  , canonicalize := fun _ => none
  , readDir := fun _ => none }

/-- A directory `d` holding `b.md`, `a.md`, a subdirectory, a `.txt` file
and an unreadable `x.md`. -/
def envPromptsDir : Env :=
  { cwd := ["proj"]
  , homeEnv := none
  , dirsHome := none
  , pathExists := fun _ => false
  , readFile := fun p =>
      if p == ["d", "a.md"] then some "A"
      else if p == ["d", "b.md"] then some "B" else none
  , parseToml := fun _ => none
  , canonicalize := fun _ => none
  , readDir := fun p =>
      if p == ["d"] then
        some [⟨"b.md", true⟩, ⟨"a.md", true⟩, ⟨"sub", false⟩, ⟨"c.txt", true⟩, ⟨"x.md", true⟩]
      else none }

/-- The directory listing served by `envPromptsDir` for `d`. -/
def entriesPromptsDir : List DirEntry :=
  [⟨"b.md", true⟩, ⟨"a.md", true⟩, ⟨"sub", false⟩, ⟨"c.txt", true⟩, ⟨"x.md", true⟩]

/-- Project prompts `shared.md`/`x.md` under `r/.codex/prompts` and personal
prompts `shared.md`/`y.md` under `p`. -/
def envMergePrompts : Env :=
  { cwd := ["r"]
  , homeEnv := none
  , dirsHome := none
  , pathExists := fun _ => false
  , readFile := fun p =>
      if p == ["r", ".codex", "prompts", "shared.md"] then some "project"
      else if p == ["r", ".codex", "prompts", "x.md"] then some "x"
      else if p == ["p", "shared.md"] then some "personal"
      else if p == ["p", "y.md"] then some "y" else none
  , parseToml := fun _ => none
  , canonicalize := fun _ => none
  , readDir := fun d =>
      if d == ["r", ".codex", "prompts"] then some [⟨"shared.md", true⟩, ⟨"x.md", true⟩]
      else if d == ["p"] then some [⟨"shared.md", true⟩, ⟨"y.md", true⟩]
      else none }

/-- A two-agent listing for the popup. -/
def agentsSample : List AgentInfo :=
  [⟨"zeta", "Z agent.", false⟩, ⟨"general", "Helpful.", true⟩]

/-- An environment without a determinable home directory whose
canonicalization is the identity. -/
def envNoHome : Env :=
  { cwd := ["pr"]
  , homeEnv := none
  , dirsHome := none
  , pathExists := fun _ => false
  , readFile := fun _ => none
  , parseToml := fun _ => none
  , canonicalize := fun p => some p
  , readDir := fun _ => none }

/-! Infrastructure lemmas about the association-map and sorting models. -/

theorem find?_filter_comm {α : Type} (q r : α → Bool) (h : ∀ a, q a = true → r a = true) :
    ∀ l : List α, List.find? q (l.filter r) = List.find? q l := by
  intro l
  induction l with
  | nil => rfl
  | cons a t ih =>
    rcases hr : r a with _ | _
    · have hq : q a = false := by
        rcases hq : q a with _ | _
        · rfl
        · exact absurd (h a hq) (by simp [hr])
      simp [List.filter_cons, hr, hq, ih]
    · rcases hq : q a with _ | _
      · simp [List.filter_cons, hr, hq, ih]
      · simp [List.filter_cons, hr, hq]

theorem AMap.get?_cons {α : Type} (a : String) (b : α) (t : AMap α) (k : String) :
    AMap.get? ((a, b) :: t) k = if a = k then some b else AMap.get? t k := by
  by_cases h : a = k
  · simp [AMap.get?, List.find?_cons, h]
  · simp [AMap.get?, List.find?_cons, h]

theorem AMap.get?_filter_ne {α : Type} (m : AMap α) (k k' : String) (h : k' ≠ k) :
    AMap.get? (List.filter (fun p => p.1 != k) m) k' = AMap.get? m k' := by
  unfold AMap.get?
  rw [find?_filter_comm]
  intro p hp
  have hp' : p.1 = k' := by simpa using hp
  simp [hp', h]

theorem AMap.get?_insert {α : Type} (m : AMap α) (k k' : String) (v : α) :
    AMap.get? (AMap.insert m k v) k' = if k' = k then some v else AMap.get? m k' := by
  unfold AMap.insert
  rw [AMap.get?_cons]
  by_cases h : k' = k
  · simp [h]
  · rw [if_neg (fun hh => h hh.symm), if_neg h, AMap.get?_filter_ne m k k' h]

theorem AMap.get?_orInsert {α : Type} (m : AMap α) (k k' : String) (v : α) :
    AMap.get? (AMap.orInsert m k v) k' =
      match AMap.get? m k with
      | some _ => AMap.get? m k'
      | none => AMap.get? (AMap.insert m k v) k' := by
  unfold AMap.orInsert
  rcases h : AMap.get? m k with _ | w <;> simp [h]

theorem AMap.mem_keys_of_get? {α : Type} (m : AMap α) (k : String) (v : α)
    (h : AMap.get? m k = some v) : k ∈ AMap.keys m := by
  unfold AMap.get? at h
  rcases hf : List.find? (fun p => p.1 == k) m with _ | p
  · rw [hf] at h; cases h
  · have hm := List.mem_of_find?_eq_some hf
    have hp : p.1 = k := by simpa using List.find?_some hf
    exact List.mem_map.mpr ⟨p, hm, hp⟩

theorem AMap.get?_insertAll {α : Type} :
    ∀ (l : List (String × α)) (base : AMap α) (k : String),
      (l.map Prod.fst).Nodup →
      AMap.get? (AMap.insertAll base l) k = orO (AMap.get? l k) (AMap.get? base k) := by
  intro l
  induction l with
  | nil =>
    intro base k _
    simp [AMap.insertAll, AMap.get?, List.find?]
  | cons a t ih =>
    intro base k h
    have hstep : AMap.insertAll base (a :: t) = AMap.insertAll (AMap.insert base a.1 a.2) t := rfl
    rw [hstep, ih _ k (List.nodup_cons.mp h).2, AMap.get?_insert]
    have hcons : AMap.get? (a :: t) k = if a.1 = k then some a.2 else AMap.get? t k := by
      rcases a with ⟨a1, a2⟩; exact AMap.get?_cons a1 a2 t k
    rw [hcons]
    by_cases hk : k = a.1
    · rw [if_pos hk, if_pos hk.symm]
      have htn : AMap.get? t k = none := by
        rcases hg : AMap.get? t k with _ | w
        · rfl
        · exfalso
          apply (List.nodup_cons.mp h).1
          have hkk := AMap.mem_keys_of_get? t k w hg
          rw [hk] at hkk
          exact hkk
      rw [htn]
      rfl
    · rw [if_neg hk, if_neg (fun hh => hk hh.symm)]

theorem AMap.get?_orInsertAll {α : Type} :
    ∀ (l : List (String × α)) (base : AMap α) (k : String),
      AMap.get? (AMap.orInsertAll base l) k = orO (AMap.get? base k) (AMap.get? l k) := by
  intro l
  induction l with
  | nil =>
    intro base k
    have h0 : AMap.orInsertAll base [] = base := rfl
    rw [h0]
    rcases h : AMap.get? base k with _ | w <;> rfl
  | cons a t ih =>
    intro base k
    have hstep : AMap.orInsertAll base (a :: t) = AMap.orInsertAll (AMap.orInsert base a.1 a.2) t := rfl
    rw [hstep, ih]
    have hcons : AMap.get? (a :: t) k = if a.1 = k then some a.2 else AMap.get? t k := by
      rcases a with ⟨a1, a2⟩; exact AMap.get?_cons a1 a2 t k
    rw [hcons, AMap.get?_orInsert]
    rcases hb : AMap.get? base a.1 with _ | w
    · rw [AMap.get?_insert]
      by_cases hk : k = a.1
      · subst hk; rw [if_pos rfl, if_pos rfl, hb]; rfl
      · rw [if_neg hk, if_neg (fun hh => hk hh.symm)]
    · by_cases hk : k = a.1
      · subst hk
        rw [if_pos rfl, hb]
        rfl
      · rw [if_neg (fun hh => hk hh.symm)]

theorem AMap.mem_of_get?_eq_some {α : Type} (m : AMap α) (k : String) (v : α)
    (h : AMap.get? m k = some v) : (k, v) ∈ m := by
  unfold AMap.get? at h
  rcases hf : List.find? (fun p => p.1 == k) m with _ | p
  · rw [hf] at h; cases h
  · rw [hf] at h
    have hm := List.mem_of_find?_eq_some hf
    have hp : p.1 = k := by simpa using List.find?_some hf
    have hv : p.2 = v := by simpa using h
    have : (k, v) = p := by
      rcases p with ⟨p1, p2⟩
      simp at hp hv
      rw [hp, hv]
    rwa [this]

theorem AMap.get?_eq_some_of_mem {α : Type} :
    ∀ (m : AMap α), AMap.NodupKeys m → ∀ (k : String) (v : α), (k, v) ∈ m →
      AMap.get? m k = some v := by
  intro m
  induction m with
  | nil => intro _ k v hv; cases hv
  | cons p t ih =>
    intro hnd k v hv
    have hnd' := hnd
    unfold AMap.NodupKeys AMap.keys at hnd'
    rw [List.map_cons] at hnd'
    rcases List.nodup_cons.mp hnd' with ⟨hp1, ht⟩
    rcases List.mem_cons.mp hv with heq | hmem
    · rcases p with ⟨p1, p2⟩
      have h1 : p1 = k := by cases heq; rfl
      have h2 : p2 = v := by cases heq; rfl
      rw [AMap.get?_cons, if_pos h1, h2]
    · have hk : k ∈ AMap.keys t := List.mem_map.mpr ⟨(k, v), hmem, rfl⟩
      have hne : p.1 ≠ k := fun hh => hp1 (by rw [hh]; exact hk)
      rcases p with ⟨p1, p2⟩
      rw [AMap.get?_cons, if_neg hne]
      exact ih ht k v hmem

theorem AMap.get?_eq_none_iff {α : Type} (m : AMap α) (k : String) :
    AMap.get? m k = none ↔ ∀ v : α, (k, v) ∉ m := by
  constructor
  · intro h v hv
    unfold AMap.get? at h
    rcases hf : List.find? (fun p => p.1 == k) m with _ | p
    · have := List.find?_eq_none.mp hf (k, v) hv
      simp at this
    · rw [hf] at h; cases h
  · intro h
    rcases hg : AMap.get? m k with _ | v
    · rfl
    · exact absurd (AMap.mem_of_get?_eq_some m k v hg) (h v)

theorem AMap.nodupKeys_nil {α : Type} : AMap.NodupKeys (AMap.empty : AMap α) :=
  List.nodup_nil

theorem AMap.nodupKeys_insert {α : Type} (m : AMap α) (k : String) (v : α)
    (h : AMap.NodupKeys m) : AMap.NodupKeys (AMap.insert m k v) := by
  unfold AMap.NodupKeys AMap.keys AMap.insert at *
  rw [List.map_cons]
  refine List.nodup_cons.mpr ⟨?_, ?_⟩
  · intro hk
    obtain ⟨p, hp, hpk⟩ := List.mem_map.mp hk
    have h2 := (List.mem_filter.mp hp).2
    rw [hpk] at h2
    simp at h2
  · exact h.sublist ((List.filter_sublist m).map (fun p => p.1))

theorem AMap.nodupKeys_orInsert {α : Type} (m : AMap α) (k : String) (v : α)
    (h : AMap.NodupKeys m) : AMap.NodupKeys (AMap.orInsert m k v) := by
  unfold AMap.orInsert
  rcases AMap.get? m k with _ | w
  · exact AMap.nodupKeys_insert m k v h
  · exact h

theorem AMap.nodupKeys_insertAll {α : Type} :
    ∀ (l : List (String × α)) (base : AMap α), AMap.NodupKeys base →
      AMap.NodupKeys (AMap.insertAll base l) := by
  intro l
  induction l with
  | nil => intro base h; exact h
  | cons a t ih =>
    intro base h
    exact ih (AMap.insert base a.1 a.2) (AMap.nodupKeys_insert base a.1 a.2 h)

theorem AMap.nodupKeys_orInsertAll {α : Type} :
    ∀ (l : List (String × α)) (base : AMap α), AMap.NodupKeys base →
      AMap.NodupKeys (AMap.orInsertAll base l) := by
  intro l
  induction l with
  | nil => intro base h; exact h
  | cons a t ih =>
    intro base h
    exact ih (AMap.orInsert base a.1 a.2) (AMap.nodupKeys_orInsert base a.1 a.2 h)

theorem perm_insertSorted {α : Type} (le : α → α → Bool) (x : α) :
    ∀ l : List α, (insertSorted le x l).Perm (x :: l) := by
  intro l
  induction l with
  | nil => simp [insertSorted]
  | cons y ys ih =>
    unfold insertSorted
    by_cases h : le x y = true
    · rw [if_pos h]
    · rw [if_neg h]
      exact (List.Perm.cons y ih).trans (List.Perm.swap x y ys)

theorem perm_sortBy {α : Type} (le : α → α → Bool) :
    ∀ l : List α, (sortBy le l).Perm l := by
  intro l
  induction l with
  | nil => simp [sortBy]
  | cons x xs ih =>
    unfold sortBy
    exact (perm_insertSorted le x (sortBy le xs)).trans (List.Perm.cons x ih)

theorem mem_insertSorted {α : Type} (le : α → α → Bool) (x : α) (l : List α) (a : α) :
    a ∈ insertSorted le x l ↔ a = x ∨ a ∈ l := by
  simpa using (perm_insertSorted le x l).mem_iff

theorem mem_sortBy {α : Type} (le : α → α → Bool) (l : List α) (a : α) :
    a ∈ sortBy le l ↔ a ∈ l :=
  (perm_sortBy le l).mem_iff

theorem pairwise_insertSorted {α : Type} (le : α → α → Bool)
    (htot : ∀ a b, le a b = true ∨ le b a = true)
    (htrans : ∀ a b c, le a b = true → le b c = true → le a c = true)
    (x : α) :
    ∀ l : List α, l.Pairwise (fun a b => le a b = true) →
      (insertSorted le x l).Pairwise (fun a b => le a b = true) := by
  intro l
  induction l with
  | nil => intro _; simp [insertSorted]
  | cons y ys ih =>
    intro hp
    rcases List.pairwise_cons.mp hp with ⟨hy, hys⟩
    unfold insertSorted
    by_cases h : le x y = true
    · rw [if_pos h]
      refine List.pairwise_cons.mpr ⟨?_, hp⟩
      intro b hb
      rcases List.mem_cons.mp hb with hbx | hb
      · rw [hbx]; exact h
      · exact htrans x y b h (hy b hb)
    · rw [if_neg h]
      refine List.pairwise_cons.mpr ⟨?_, ih hys⟩
      intro b hb
      rcases (mem_insertSorted le x ys b).mp hb with hbx | hb
      · rw [hbx]
        rcases htot x y with h' | h'
        · exact absurd h' h
        · exact h'
      · exact hy b hb

theorem pairwise_sortBy {α : Type} (le : α → α → Bool)
    (htot : ∀ a b, le a b = true ∨ le b a = true)
    (htrans : ∀ a b c, le a b = true → le b c = true → le a c = true) :
    ∀ l : List α, (sortBy le l).Pairwise (fun a b => le a b = true) := by
  intro l
  induction l with
  | nil => simp [sortBy]
  | cons x xs ih => exact pairwise_insertSorted le htot htrans x _ ih

theorem listLexLe_total : ∀ as bs : List Char, listLexLe as bs = true ∨ listLexLe bs as = true := by
  intro as
  induction as with
  | nil => intro bs; left; rfl
  | cons a as ih =>
    intro bs
    cases bs with
    | nil => right; rfl
    | cons b bs =>
      by_cases h : a = b
      · subst h
        unfold listLexLe
        rw [if_pos rfl, if_pos rfl]
        exact ih bs
      · unfold listLexLe
        rw [if_neg h, if_neg (Ne.symm h)]
        rcases lt_or_gt_of_ne h with h' | h'
        · left; exact decide_eq_true h'
        · right; exact decide_eq_true h'

theorem listLexLe_trans :
    ∀ as bs cs : List Char, listLexLe as bs = true → listLexLe bs cs = true →
      listLexLe as cs = true := by
  intro as
  induction as with
  | nil => intro bs cs _ _; rfl
  | cons a as ih =>
    intro bs cs h1 h2
    cases bs with
    | nil => simp [listLexLe] at h1
    | cons b bs =>
      cases cs with
      | nil => simp [listLexLe] at h2
      | cons c cs =>
        unfold listLexLe at h1 h2 ⊢
        by_cases hab : a = b
        · subst hab
          rw [if_pos rfl] at h1
          by_cases hac : a = c
          · subst hac
            rw [if_pos rfl] at h2 ⊢
            exact ih bs cs h1 h2
          · rw [if_neg hac] at h2 ⊢
            exact h2
        · rw [if_neg hab] at h1
          have hab' : a < b := of_decide_eq_true h1
          by_cases hbc : b = c
          · subst hbc
            rw [if_neg hab]
            exact decide_eq_true hab'
          · rw [if_neg hbc] at h2
            have hbc' : b < c := of_decide_eq_true h2
            have hac : a < c := lt_trans hab' hbc'
            rw [if_neg (ne_of_lt hac)]
            exact decide_eq_true hac

theorem strLe_total (a b : String) : strLe a b = true ∨ strLe b a = true :=
  listLexLe_total a.data b.data

theorem strLe_trans (a b c : String) :
    strLe a b = true → strLe b c = true → strLe a c = true :=
  listLexLe_trans a.data b.data c.data

@[simp]
theorem orO_none_r {α : Type} (a : Option α) : orO a none = a := by
  cases a <;> rfl

theorem orO_assoc {α : Type} (a b c : Option α) :
    orO (orO a b) c = orO a (orO b c) := by
  cases a <;> rfl

theorem load_agents_from_not_exists (env : Env) (root : List String)
    (h : env.pathExists (root ++ ["agents.toml"]) = false) :
    load_agents_from env root = AMap.empty := by
  simp only [load_agents_from, h]
  rfl

theorem load_agents_from_read_none (env : Env) (root : List String)
    (hex : env.pathExists (root ++ ["agents.toml"]) = true)
    (hr : env.readFile (root ++ ["agents.toml"]) = none) :
    load_agents_from env root = AMap.empty := by
  simp only [load_agents_from, hex, hr, if_true]

theorem load_agents_from_parse_none (env : Env) (root : List String) (content : String)
    (hex : env.pathExists (root ++ ["agents.toml"]) = true)
    (hr : env.readFile (root ++ ["agents.toml"]) = some content)
    (hp : env.parseToml content = none) :
    load_agents_from env root = AMap.empty := by
  simp only [load_agents_from, hex, hr, hp, if_true]

theorem load_agents_from_parsed (env : Env) (root : List String) (content : String)
    (parsed : List (String × AgentConfig))
    (hex : env.pathExists (root ++ ["agents.toml"]) = true)
    (hr : env.readFile (root ++ ["agents.toml"]) = some content)
    (hp : env.parseToml content = some parsed) :
    load_agents_from env root =
      AMap.insertAll AMap.empty
        (parsed.filterMap (fun kv =>
          if (AgentConfig.validate kv.2).isOk then some (kv.1, processConfig env root kv.2)
          else none)) := by
  simp only [load_agents_from, hex, hr, hp, if_true]

theorem load_agents_from_nodupKeys (env : Env) (root : List String) :
    AMap.NodupKeys (load_agents_from env root) := by
  rcases hex : env.pathExists (root ++ ["agents.toml"]) with _ | _
  · rw [load_agents_from_not_exists env root hex]
    exact AMap.nodupKeys_nil
  · rcases hr : env.readFile (root ++ ["agents.toml"]) with _ | content
    · rw [load_agents_from_read_none env root hex hr]
      exact AMap.nodupKeys_nil
    · rcases hp : env.parseToml content with _ | parsed
      · rw [load_agents_from_parse_none env root content hex hr hp]
        exact AMap.nodupKeys_nil
      · rw [load_agents_from_parsed env root content parsed hex hr hp]
        exact AMap.nodupKeys_insertAll _ _ AMap.nodupKeys_nil

theorem keys_filterMap_sublist {α β : Type} (q : α → Bool) (g : α → β) :
    ∀ t : List (String × α),
      ((t.filterMap (fun kv => if q kv.2 then some (kv.1, g kv.2) else none)).map
          Prod.fst).Sublist (t.map Prod.fst) := by
  intro t
  induction t with
  | nil => simp
  | cons a t ih =>
    rw [List.filterMap_cons]
    by_cases hq : q a.2 = true
    · rw [if_pos hq]
      exact List.Sublist.cons₂ a.1 ih
    · rw [if_neg hq]
      exact List.Sublist.cons a.1 ih

theorem amap_get?_filterMap_if {α β : Type} (q : α → Bool) (g : α → β) :
    ∀ (entries : List (String × α)) (n : String) (c : α),
      (entries.map Prod.fst).Nodup → (n, c) ∈ entries →
      AMap.get? (entries.filterMap (fun kv =>
          if q kv.2 then some (kv.1, g kv.2) else none)) n =
        (if q c then some (g c) else none) := by
  intro entries
  induction entries with
  | nil => intro n c _ hm; cases hm
  | cons a t ih =>
    intro n c hnd hm
    rw [List.filterMap_cons]
    rcases List.mem_cons.mp hm with heq | hmem
    · subst heq
      have hnk : n ∉ List.map Prod.fst t := (List.nodup_cons.mp hnd).1
      by_cases hq : q c = true
      · rw [if_pos hq, if_pos hq, AMap.get?_cons, if_pos rfl]
      · rw [if_neg hq, if_neg hq]
        have hnone : AMap.get? (t.filterMap (fun kv =>
            if q kv.2 then some (kv.1, g kv.2) else none)) n = none := by
          rcases hg : AMap.get? (t.filterMap (fun kv =>
              if q kv.2 then some (kv.1, g kv.2) else none)) n with _ | w
          · exact hg
          · exfalso
            apply hnk
            have hmk := AMap.mem_keys_of_get? _ n w hg
            exact (keys_filterMap_sublist q g t).mem hmk
        exact hnone
    · have hkt : n ∈ List.map Prod.fst t := List.mem_map.mpr ⟨(n, c), hmem, rfl⟩
      have hne : a.1 ≠ n := fun hh => (List.nodup_cons.mp hnd).1 (hh ▸ hkt)
      have htail := ih n c (List.nodup_cons.mp hnd).2 hmem
      by_cases hq : q a.2 = true
      · rw [if_pos hq, AMap.get?_cons, if_neg hne]
        exact htail
      · rw [if_neg hq]
        exact htail

theorem get?_keyed_list {β : Type} (key : β → String) :
    ∀ (l : List β) (n : String),
      AMap.get? (l.map (fun p => (key p, p))) n = l.find? (fun p => key p == n) := by
  intro l
  induction l with
  | nil => intro n; rfl
  | cons a t ih =>
    intro n
    rw [List.map_cons, AMap.get?_cons]
    by_cases h : key a = n
    · rw [if_pos h, List.find?_cons_of_pos _ (by simp [h])]
    · rw [if_neg h, List.find?_cons_of_neg _ (by simp [h]), ih]

theorem find?_key_of_mem_nodup {β : Type} (key : β → String) :
    ∀ l : List β, (l.map key).Nodup → ∀ p ∈ l,
      l.find? (fun x => key x == key p) = some p := by
  intro l
  induction l with
  | nil => intro _ p hp; cases hp
  | cons a t ih =>
    intro hnd p hp
    rcases List.mem_cons.mp hp with heq | hmem
    · rw [heq, List.find?_cons_of_pos _ (by simp)]
    · have hne : key a ≠ key p := by
        intro hh
        exact (List.nodup_cons.mp hnd).1 (hh ▸ List.mem_map.mpr ⟨p, hmem, rfl⟩)
      rw [List.find?_cons_of_neg _ (by simp [hne])]
      exact ih (List.nodup_cons.mp hnd).2 p hmem

theorem mem_values_iff_get? {α : Type} (m : AMap α) (hnd : AMap.NodupKeys m) (v : α) :
    v ∈ AMap.values m ↔ ∃ k, AMap.get? m k = some v := by
  constructor
  · intro hv
    obtain ⟨p, hp, hpv⟩ := List.mem_map.mp hv
    refine ⟨p.1, ?_⟩
    have : (p.1, v) ∈ m := by
      rcases p with ⟨p1, p2⟩
      cases hpv
      exact hp
    exact AMap.get?_eq_some_of_mem m hnd p.1 v this
  · intro ⟨k, hk⟩
    exact List.mem_map.mpr ⟨(k, v), AMap.mem_of_get?_eq_some m k v hk, rfl⟩

/-- Every binding of a map built from name-keyed inserts keys each value by
its own `name`. -/
def KeyedByName (m : AMap CustomPrompt) : Prop := ∀ kv ∈ m, kv.1 = kv.2.name

theorem keyedByName_insertAll :
    ∀ (l : List CustomPrompt) (base : AMap CustomPrompt), KeyedByName base →
      KeyedByName (AMap.insertAll base (l.map (fun p => (p.name, p)))) := by
  intro l
  induction l with
  | nil => intro base h; exact h
  | cons a t ih =>
    intro base h
    apply ih
    intro kv hkv
    rcases List.mem_cons.mp hkv with heq | hmem
    · rw [heq]
    · exact h kv (List.mem_of_mem_filter hmem)

theorem keyedByName_orInsertAll :
    ∀ (l : List CustomPrompt) (base : AMap CustomPrompt), KeyedByName base →
      KeyedByName (AMap.orInsertAll base (l.map (fun p => (p.name, p)))) := by
  intro l
  induction l with
  | nil => intro base h; exact h
  | cons a t ih =>
    intro base h
    apply ih
    show KeyedByName (AMap.orInsert base a.name a)
    rcases hb : AMap.get? base a.name with _ | w
    · unfold AMap.orInsert
      rw [hb]
      intro kv hkv
      rcases List.mem_cons.mp hkv with heq | hmem
      · rw [heq]
      · exact h kv (List.mem_of_mem_filter hmem)
    · unfold AMap.orInsert
      rw [hb]
      exact h

/-! Claim theorems. -/

/-- Claim C8: the recursion guard holds for every metadata map:
`can_spawn_agents` is `true` exactly when the map carries no `is_agent`
marker key, and after `mark_as_agent_context` it is `false`, so a marked
(agent) context can never spawn another agent. -/
theorem C8_recursion_guard (metadata : AMap String) :
    (AgentRegistry.can_spawn_agents metadata = true ↔
      AMap.get? metadata "is_agent" = none)
    ∧ AgentRegistry.can_spawn_agents (AgentRegistry.mark_as_agent_context metadata) = false := by
  constructor
  · unfold AgentRegistry.can_spawn_agents
    rcases h : AMap.get? metadata "is_agent" with _ | v <;> simp [h]
  · unfold AgentRegistry.can_spawn_agents AgentRegistry.mark_as_agent_context
    rw [AMap.get?_insert]
    simp

/-- Claim C3: after trimming and ASCII lower-casing, the sandbox-policy
parser maps `read-only`/`readonly` to `ReadOnly`,
`danger-full-access`/`dangerfullaccess` to `DangerFullAccess`,
`workspace-write`/`workspacewrite` to `WorkspaceWrite` without network
access, the four network spellings to `WorkspaceWrite` with network access,
and errors on every other normalized input; one level up, a `permissions`
field that trims to empty or equals `inherit` case-insensitively (or is
absent) yields no override without consulting the parser's vocabulary. -/
theorem C3_policy_vocabulary (s : String) (c : AgentConfig) (raw : String) :
    ((strToLower (strTrim s) = "read-only" ∨ strToLower (strTrim s) = "readonly") →
        parse_permissions_policy s = .ok SandboxPolicy.ReadOnly)
    ∧ ((strToLower (strTrim s) = "danger-full-access" ∨
          strToLower (strTrim s) = "dangerfullaccess") →
        parse_permissions_policy s = .ok SandboxPolicy.DangerFullAccess)
    ∧ ((strToLower (strTrim s) = "workspace-write" ∨
          strToLower (strTrim s) = "workspacewrite") →
        parse_permissions_policy s = .ok (SandboxPolicy.WorkspaceWrite false))
    ∧ ((strToLower (strTrim s) = "workspace-write+network" ∨
          strToLower (strTrim s) = "workspace-write-network" ∨
          strToLower (strTrim s) = "workspace-write:network" ∨
          strToLower (strTrim s) = "workspacewrite+network") →
        parse_permissions_policy s = .ok (SandboxPolicy.WorkspaceWrite true))
    ∧ (strToLower (strTrim s) ∉ (["read-only", "readonly", "danger-full-access",
          "dangerfullaccess", "workspace-write", "workspacewrite",
          "workspace-write+network", "workspace-write-network",
          "workspace-write:network", "workspacewrite+network"] : List String) →
        ∃ e, parse_permissions_policy s = .error e)
    ∧ (c.permissions = some raw →
        (strTrim raw = "" ∨ eqIgnoreAsciiCase (strTrim raw) "inherit" = true) →
        AgentConfig.permissions_policy c = .ok none)
    ∧ (c.permissions = none → AgentConfig.permissions_policy c = .ok none) := by
  refine ⟨?_, ?_, ?_, ?_, ?_, ?_, ?_⟩
  · rintro (h | h) <;> simp only [parse_permissions_policy] <;> rw [h] <;> decide
  · rintro (h | h) <;> simp only [parse_permissions_policy] <;> rw [h] <;> decide
  · rintro (h | h) <;> simp only [parse_permissions_policy] <;> rw [h] <;> decide
  · rintro (h | h | h | h) <;> simp only [parse_permissions_policy] <;> rw [h] <;> decide
  · intro h
    simp only [List.mem_cons, List.not_mem_nil, or_false, not_or] at h
    obtain ⟨h1, h2, h3, h4, h5, h6, h7, h8, h9, h10⟩ := h
    refine ⟨"unknown permissions value '" ++ strToLower (strTrim s) ++ "'", ?_⟩
    simp only [parse_permissions_policy]
    rw [if_neg (by simp [h1, h2]), if_neg (by simp [h3, h4]), if_neg (by simp [h5, h6]),
      if_neg (by simp [h7, h8, h9, h10])]
  · intro hperm hcase
    simp only [AgentConfig.permissions_policy, hperm]
    rcases hcase with hc | hc
    · rw [if_pos (by simp [hc])]
    · rw [if_pos (by simp [hc])]
  · intro hperm
    simp only [AgentConfig.permissions_policy, hperm]

/-- Witness for C3 at the spec's own example inputs. -/
theorem C3_policy_vocabulary_witness :
    parse_permissions_policy "read-only" = .ok SandboxPolicy.ReadOnly
    ∧ parse_permissions_policy "workspace-write+network" =
        .ok (SandboxPolicy.WorkspaceWrite true)
    ∧ parse_permissions_policy "danger-full-access" = .ok SandboxPolicy.DangerFullAccess
    ∧ (∃ e, parse_permissions_policy "totally-unknown" = .error e)
    ∧ AgentConfig.permissions_policy
        { prompt := some "Inline", prompt_file := none, tools := none, model := none
        , reasoning_effort := none, permissions := some " inherit " } = .ok none :=
  ⟨(C3_policy_vocabulary "read-only" generalSeedConfig "").1 (Or.inl (by decide)),
   (C3_policy_vocabulary "workspace-write+network" generalSeedConfig "").2.2.2.1
     (Or.inl (by decide)),
   (C3_policy_vocabulary "danger-full-access" generalSeedConfig "").2.1 (Or.inl (by decide)),
   (C3_policy_vocabulary "totally-unknown" generalSeedConfig "").2.2.2.2.1 (by decide),
   (C3_policy_vocabulary "x"
       { prompt := some "Inline", prompt_file := none, tools := none, model := none
       , reasoning_effort := none, permissions := some " inherit " }
       " inherit ").2.2.2.2.2.1 rfl (Or.inr (by decide))⟩

/-- Claim C10: when the home directory cannot be determined,
`validate_prompt_path` fails for every base directory and every requested
path — even one whose canonical resolution lies inside the base directory —
because the personal-root lookup is a hard failure checked before the
containment test. -/
theorem C10_no_home_always_error (env : Env) (base_dir : List String) (prompt_file : String)
    (h : env.dirsHome = none) :
    exceptIsErr (AgentRegistry.validate_prompt_path env base_dir prompt_file) = true := by
  simp only [AgentRegistry.validate_prompt_path]
  rcases hc : env.canonicalize (if strStartsWith prompt_file "/" then pathComps prompt_file
      else base_dir ++ pathComps prompt_file) with _ | canonical
  · rfl
  · rw [h]
    rfl

/-- Witness for C10: a path that canonicalizes inside the base directory is
still rejected when the home lookup fails. -/
theorem C10_no_home_always_error_witness :
    envNoHome.canonicalize (["pr", ".codex"] ++ pathComps "prompts/x.md")
        = some ["pr", ".codex", "prompts", "x.md"]
    ∧ (["pr", ".codex"] : List String).isPrefixOf ["pr", ".codex", "prompts", "x.md"] = true
    ∧ exceptIsErr (AgentRegistry.validate_prompt_path envNoHome ["pr", ".codex"]
        "prompts/x.md") = true :=
  ⟨by decide, by decide, C10_no_home_always_error envNoHome ["pr", ".codex"] "prompts/x.md" rfl⟩

/-- Counterexample for C2 as stated: in `envSymlinkHome` the candidate
`/home/link/.codex/p.md` canonicalizes to `/home/real/.codex/p.md`, which is
a descendant of the personal root's canonical form `/home/real/.codex`, so
the claim's acceptance condition holds; yet the source compares against the
literal (non-canonicalized) `~/.codex` path and rejects. -/
theorem C2_path_guard_counterexample :
    validate_prompt_path_claim envSymlinkHome ["pr", ".codex"] "/home/link/.codex/p.md" = true
    ∧ exceptIsErr (AgentRegistry.validate_prompt_path envSymlinkHome ["pr", ".codex"]
        "/home/link/.codex/p.md") = true := by
  decide

/-- Equation for the path guard when canonicalization of the candidate
fails. -/
theorem validate_prompt_path_canon_none (env : Env) (base_dir : List String)
    (prompt_file : String)
    (hc : env.canonicalize (if strStartsWith prompt_file "/" then pathComps prompt_file
        else base_dir ++ pathComps prompt_file) = none) :
    AgentRegistry.validate_prompt_path env base_dir prompt_file =
      .error "Security error: Prompt file must be within project .codex or ~/.codex directory" := by
  simp only [AgentRegistry.validate_prompt_path, hc]

/-- Equation for the path guard when the home lookup fails. -/
theorem validate_prompt_path_home_none (env : Env) (base_dir : List String)
    (prompt_file : String) (canon : List String)
    (hc : env.canonicalize (if strStartsWith prompt_file "/" then pathComps prompt_file
        else base_dir ++ pathComps prompt_file) = some canon)
    (hh : env.dirsHome = none) :
    AgentRegistry.validate_prompt_path env base_dir prompt_file =
      .error "Cannot determine home directory" := by
  simp only [AgentRegistry.validate_prompt_path, hc, hh]

/-- Equation for the path guard once canonicalization and the home lookup
both succeed. -/
theorem validate_prompt_path_cond (env : Env) (base_dir : List String)
    (prompt_file : String) (canon home : List String)
    (hc : env.canonicalize (if strStartsWith prompt_file "/" then pathComps prompt_file
        else base_dir ++ pathComps prompt_file) = some canon)
    (hh : env.dirsHome = some home) :
    AgentRegistry.validate_prompt_path env base_dir prompt_file =
      if (!(((env.canonicalize base_dir).getD base_dir).isPrefixOf canon)
          && !((home ++ [".codex"]).isPrefixOf canon)) = true then
        .error "Security error: Prompt file must be within project .codex or ~/.codex directory"
      else .ok canon := by
  simp only [AgentRegistry.validate_prompt_path, hc, hh]

/-- Claim C2 (amended): `validate_prompt_path` succeeds with `canonical`
exactly when the candidate (the path as-is when it starts with `/`, else
joined under `base_dir`) canonicalizes to `canonical`, the home directory is
determinable, and `canonical` is equal to or a descendant of `base_dir`'s
canonical form (falling back to the literal `base_dir` when that
canonicalization fails) or of the literal — not canonicalized — personal
`~/.codex` path; in every other case it returns an error. -/
theorem C2_path_guard_amended (env : Env) (base_dir : List String) (prompt_file : String)
    (canonical : List String) :
    AgentRegistry.validate_prompt_path env base_dir prompt_file = .ok canonical ↔
      (env.canonicalize (if strStartsWith prompt_file "/" then pathComps prompt_file
          else base_dir ++ pathComps prompt_file) = some canonical
        ∧ ∃ home, env.dirsHome = some home
            ∧ (((env.canonicalize base_dir).getD base_dir).isPrefixOf canonical = true
              ∨ (home ++ [".codex"]).isPrefixOf canonical = true)) := by
  rcases hc : env.canonicalize (if strStartsWith prompt_file "/" then pathComps prompt_file
      else base_dir ++ pathComps prompt_file) with _ | canon
  · rw [validate_prompt_path_canon_none env base_dir prompt_file hc]
    constructor
    · intro h
      cases h
    · rintro ⟨h1, _⟩
      cases h1
  · rcases hh : env.dirsHome with _ | home
    · rw [validate_prompt_path_home_none env base_dir prompt_file canon hc hh]
      constructor
      · intro h
        cases h
      · rintro ⟨h1, home, hh2, _⟩
        cases hh2
    · rw [validate_prompt_path_cond env base_dir prompt_file canon home hc hh]
      by_cases hcond : (!(((env.canonicalize base_dir).getD base_dir).isPrefixOf canon)
          && !((home ++ [".codex"]).isPrefixOf canon)) = true
      · rw [if_pos hcond]
        rw [Bool.and_eq_true, Bool.not_eq_true', Bool.not_eq_true'] at hcond
        constructor
        · intro h
          cases h
        · rintro ⟨h1, home', hh', hor⟩
          rw [Option.some.injEq] at h1 hh'
          rw [← h1] at hor
          rw [← hh'] at hor
          rcases hor with hA | hB
          · rw [hcond.1] at hA
            cases hA
          · rw [hcond.2] at hB
            cases hB
      · rw [if_neg hcond]
        constructor
        · intro h
          have hco : canon = canonical := by
            injection h
          subst hco
          refine ⟨rfl, home, rfl, ?_⟩
          rcases hA : ((env.canonicalize base_dir).getD base_dir).isPrefixOf canon with _ | _
          · rcases hB : (home ++ [".codex"]).isPrefixOf canon with _ | _
            · exfalso
              apply hcond
              rw [hA, hB]
              rfl
            · exact Or.inr rfl
          · exact Or.inl rfl
        · rintro ⟨h1, home', hh', hor⟩
          rw [Option.some.injEq] at h1
          rw [h1]

/-- The merged map built by `AgentRegistry::new` when the personal root
exists. -/
theorem new_agents_eq_some (env : Env) (home : List String)
    (hdir : AgentRegistry.get_agents_directory env = some home) :
    (AgentRegistry.new env).agents =
      AMap.insertAll (AMap.insert AMap.empty "general" generalSeedConfig)
        (AMap.orInsertAll
          (AMap.insertAll AMap.empty (load_agents_from env (env.cwd ++ [".codex"])))
          (load_agents_from env home)) := by
  simp only [AgentRegistry.new, hdir]

/-- The merged map built by `AgentRegistry::new` when there is no personal
root. -/
theorem new_agents_eq_none (env : Env)
    (hdir : AgentRegistry.get_agents_directory env = none) :
    (AgentRegistry.new env).agents =
      AMap.insertAll (AMap.insert AMap.empty "general" generalSeedConfig)
        (AMap.insertAll AMap.empty (load_agents_from env (env.cwd ++ [".codex"]))) := by
  simp only [AgentRegistry.new, hdir]

/-- Counterexample for C1 as stated: with no project `agents.toml` and a
personal `agents.toml` defining `general`, the built registry maps `general`
to the personal definition, which differs from the built-in seed — a
personal-root entry does overwrite the built-in `general` seed entry. -/
theorem C1_personal_overwrites_seed_counterexample :
    AMap.get? (AgentRegistry.new envPersonalGeneral).agents "general" = some cfgPersonalGeneral
    ∧ cfgPersonalGeneral ≠ generalSeedConfig := by
  decide

/-- Claim C1 (amended): the registry lookup is characterized root-first —
the project-root definition when present, else the personal-root definition
when present, else the built-in `general` seed for the name `general`.  In
particular a project definition always wins over a personal one, personal
entries fill only names absent from the project root, and the seed survives
only when neither file defines `general` (a personal `general` does replace
the seed when the project does not define it). -/
theorem C1_registry_merge_amended (env : Env) (n : String) :
    AMap.get? (AgentRegistry.new env).agents n =
      orO (AMap.get? (load_agents_from env (env.cwd ++ [".codex"])) n)
        (orO (match AgentRegistry.get_agents_directory env with
              | some home => AMap.get? (load_agents_from env home) n
              | none => none)
          (if n = "general" then some generalSeedConfig else none)) := by
  have he : AMap.get? (AMap.empty : AMap AgentConfig) n = none := rfl
  have hP := load_agents_from_nodupKeys env (env.cwd ++ [".codex"])
  have hm0 : AMap.NodupKeys
      (AMap.insertAll AMap.empty (load_agents_from env (env.cwd ++ [".codex"]))) :=
    AMap.nodupKeys_insertAll _ _ AMap.nodupKeys_nil
  rcases hdir : AgentRegistry.get_agents_directory env with _ | home
  · rw [new_agents_eq_none env hdir]
    rw [AMap.get?_insertAll _ _ _ hm0, AMap.get?_insertAll _ _ _ hP, AMap.get?_insert, he,
      orO_none_r]
    rfl
  · have hm : AMap.NodupKeys (AMap.orInsertAll
        (AMap.insertAll AMap.empty (load_agents_from env (env.cwd ++ [".codex"])))
        (load_agents_from env home)) := AMap.nodupKeys_orInsertAll _ _ hm0
    rw [new_agents_eq_some env home hdir]
    rw [AMap.get?_insertAll _ _ _ hm, AMap.get?_orInsertAll,
      AMap.get?_insertAll _ _ _ hP, AMap.get?_insert, he, orO_none_r, orO_assoc]

/-- Counterexample for C4 as stated: agent `x` exists but its prompt is
absent while `general`'s prompt is `G`; the fallback chain described by the
claim would produce `G`, yet the source returns the fixed default. -/
theorem C4_system_prompt_counterexample :
    AMap.get? regPromptless.agents "x" = some cfgPromptless
    ∧ cfgPromptless.prompt = none
    ∧ (AMap.get? regPromptless.agents "general").bind (fun c => c.prompt) = some "G"
    ∧ AgentRegistry.get_system_prompt regPromptless "x" = "You are a helpful AI assistant."
    ∧ ("You are a helpful AI assistant." : String) ≠ "G" := by
  decide

/-- Claim C4 (amended): `get_system_prompt` first selects an entry — the
named agent when present, else `general` — and then returns that entry's
prompt when set, else the fixed default literal; when neither entry exists
it returns the default.  It never fails, but a present-yet-promptless named
agent yields the default even when `general` has a prompt. -/
theorem C4_system_prompt_amended (r : AgentRegistry) (name : String) :
    (∀ c p, AMap.get? r.agents name = some c → c.prompt = some p →
        AgentRegistry.get_system_prompt r name = p)
    ∧ (∀ c, AMap.get? r.agents name = some c → c.prompt = none →
        AgentRegistry.get_system_prompt r name = "You are a helpful AI assistant.")
    ∧ (AMap.get? r.agents name = none →
        (∀ c p, AMap.get? r.agents "general" = some c → c.prompt = some p →
            AgentRegistry.get_system_prompt r name = p)
        ∧ (∀ c, AMap.get? r.agents "general" = some c → c.prompt = none →
            AgentRegistry.get_system_prompt r name = "You are a helpful AI assistant.")
        ∧ (AMap.get? r.agents "general" = none →
            AgentRegistry.get_system_prompt r name = "You are a helpful AI assistant.")) := by
  refine ⟨?_, ?_, ?_⟩
  · intro c p h1 h2
    simp [AgentRegistry.get_system_prompt, Option.orElse, h1, h2]
  · intro c h1 h2
    simp [AgentRegistry.get_system_prompt, Option.orElse, h1, h2]
  · intro h1
    refine ⟨?_, ?_, ?_⟩
    · intro c p h2 h3
      simp [AgentRegistry.get_system_prompt, Option.orElse, h1, h2, h3]
    · intro c h2 h3
      simp [AgentRegistry.get_system_prompt, Option.orElse, h1, h2, h3]
    · intro h2
      simp [AgentRegistry.get_system_prompt, Option.orElse, h1, h2]

/-- Witness for the amended C4 at a concrete registry. -/
theorem C4_system_prompt_amended_witness :
    AgentRegistry.get_system_prompt regPromptless "general" = "G" :=
  (C4_system_prompt_amended regPromptless "general").1 cfgGeneralG "G" (by decide) (by decide)

/-- Claim C7: failures while loading one root's `agents.toml` degrade at the
smallest granularity: `validate()` accepts exactly when one of
`prompt`/`prompt_file` is set and the other absent; an entry violating this
is discarded while every sibling in the same file still loads (each parsed
entry resolves independently of the others); and a parse failure of the
whole file yields zero agents from that root instead of an error. -/
theorem C7_granular_degradation :
    (∀ c : AgentConfig, ((AgentConfig.validate c).isOk = true ↔
        ((c.prompt.isSome = true ∧ c.prompt_file = none) ∨
          (c.prompt = none ∧ c.prompt_file.isSome = true))))
    ∧ (∀ (env : Env) (root : List String) (content : String)
        (entries : List (String × AgentConfig)) (n : String) (c : AgentConfig),
        env.pathExists (root ++ ["agents.toml"]) = true →
        env.readFile (root ++ ["agents.toml"]) = some content →
        env.parseToml content = some entries →
        (entries.map Prod.fst).Nodup →
        (n, c) ∈ entries →
        AMap.get? (load_agents_from env root) n =
          (if (AgentConfig.validate c).isOk = true then some (processConfig env root c)
           else none))
    ∧ (∀ (env : Env) (root : List String) (content : String),
        env.pathExists (root ++ ["agents.toml"]) = true →
        env.readFile (root ++ ["agents.toml"]) = some content →
        env.parseToml content = none →
        load_agents_from env root = AMap.empty) := by
  refine ⟨?_, ?_, ?_⟩
  · intro c
    rcases hp : c.prompt with _ | p <;> rcases hf : c.prompt_file with _ | f <;>
      simp [AgentConfig.validate, Except.isOk, Except.toBool, hp, hf]
  · intro env root content entries n c hex hr hparse hnd hm
    rw [load_agents_from_parsed env root content entries hex hr hparse]
    have hnd2 : ((entries.filterMap (fun kv =>
        if (AgentConfig.validate kv.2).isOk then some (kv.1, processConfig env root kv.2)
        else none)).map Prod.fst).Nodup :=
      hnd.sublist (keys_filterMap_sublist (fun cc => (AgentConfig.validate cc).isOk)
        (fun cc => processConfig env root cc) entries)
    rw [AMap.get?_insertAll _ _ _ hnd2]
    have hfm := amap_get?_filterMap_if (fun cc => (AgentConfig.validate cc).isOk)
      (fun cc => processConfig env root cc) entries n c hnd hm
    rw [hfm, show AMap.get? (AMap.empty : AMap AgentConfig) n = none from rfl, orO_none_r]
  · intro env root content hex hr hparse
    exact load_agents_from_parse_none env root content hex hr hparse

/-- Witness for C7: in `envGranular` the invalid sibling `bad` is dropped
while `good` still loads from the same file. -/
theorem C7_granular_degradation_witness :
    AMap.get? (load_agents_from envGranular ["r"]) "bad" = none
    ∧ AMap.get? (load_agents_from envGranular ["r"]) "good" =
        some (processConfig envGranular ["r"] cfgInlineGood) := by
  constructor
  · have h := C7_granular_degradation.2.1 envGranular ["r"] "t"
      [("good", cfgInlineGood), ("bad", cfgBothBad)] "bad" cfgBothBad
      (by decide) (by decide) (by decide) (by decide) (by decide)
    rw [h]
    decide
  · have h := C7_granular_degradation.2.1 envGranular ["r"] "t"
      [("good", cfgInlineGood), ("bad", cfgBothBad)] "good" cfgInlineGood
      (by decide) (by decide) (by decide) (by decide) (by decide)
    rw [h]
    decide

/-- Equation for the discovery step on a non-file entry. -/
theorem promptOfEntry_not_file (env : Env) (dir : List String) (exclude : List String)
    (e : DirEntry) (hf : e.isFile = false) :
    promptOfEntry env dir exclude e = none := by
  simp only [promptOfEntry, hf]
  rw [if_neg Bool.false_ne_true]

/-- Equation for the discovery step when the name has no extension. -/
theorem promptOfEntry_ext_none (env : Env) (dir : List String) (exclude : List String)
    (e : DirEntry) (hf : e.isFile = true) (hext : extensionOf e.fileName = none) :
    promptOfEntry env dir exclude e = none := by
  simp only [promptOfEntry, hf, hext, if_true]

/-- Equation for the discovery step on a non-`md` extension. -/
theorem promptOfEntry_not_md (env : Env) (dir : List String) (exclude : List String)
    (e : DirEntry) (ext : String) (hf : e.isFile = true)
    (hext : extensionOf e.fileName = some ext)
    (hmd : eqIgnoreAsciiCase ext "md" = false) :
    promptOfEntry env dir exclude e = none := by
  simp only [promptOfEntry, hf, hext, hmd, if_true]
  rw [if_neg Bool.false_ne_true]

/-- Equation for the discovery step on an excluded stem. -/
theorem promptOfEntry_excluded (env : Env) (dir : List String) (exclude : List String)
    (e : DirEntry) (ext : String) (hf : e.isFile = true)
    (hext : extensionOf e.fileName = some ext)
    (hmd : eqIgnoreAsciiCase ext "md" = true)
    (hex : exclude.contains (stemOf e.fileName) = true) :
    promptOfEntry env dir exclude e = none := by
  simp only [promptOfEntry, hf, hext, hmd, hex, if_true]

/-- Equation for the discovery step when the content read fails. -/
theorem promptOfEntry_read_none (env : Env) (dir : List String) (exclude : List String)
    (e : DirEntry) (ext : String) (hf : e.isFile = true)
    (hext : extensionOf e.fileName = some ext)
    (hmd : eqIgnoreAsciiCase ext "md" = true)
    (hex : exclude.contains (stemOf e.fileName) = false)
    (hr : env.readFile (dir ++ [e.fileName]) = none) :
    promptOfEntry env dir exclude e = none := by
  simp only [promptOfEntry, hf, hext, hmd, hex, hr, if_true]
  rw [if_neg Bool.false_ne_true]

/-- Equation for the successful discovery step. -/
theorem promptOfEntry_read_some (env : Env) (dir : List String) (exclude : List String)
    (e : DirEntry) (ext : String) (content : String) (hf : e.isFile = true)
    (hext : extensionOf e.fileName = some ext)
    (hmd : eqIgnoreAsciiCase ext "md" = true)
    (hex : exclude.contains (stemOf e.fileName) = false)
    (hr : env.readFile (dir ++ [e.fileName]) = some content) :
    promptOfEntry env dir exclude e =
      some { name := stemOf e.fileName, path := dir ++ [e.fileName], content := content } := by
  simp only [promptOfEntry, hf, hext, hmd, hex, hr, if_true]
  rw [if_neg Bool.false_ne_true]

/-- The discovery step succeeds with `p` exactly under the claim's side
conditions. -/
theorem promptOfEntry_eq_some_iff (env : Env) (dir : List String) (exclude : List String)
    (e : DirEntry) (p : CustomPrompt) :
    promptOfEntry env dir exclude e = some p ↔
      (e.isFile = true
      ∧ (∃ ext, extensionOf e.fileName = some ext ∧ eqIgnoreAsciiCase ext "md" = true)
      ∧ p.name = stemOf e.fileName
      ∧ exclude.contains p.name = false
      ∧ env.readFile (dir ++ [e.fileName]) = some p.content
      ∧ p.path = dir ++ [e.fileName]) := by
  by_cases hf : e.isFile = true
  · rcases hext : extensionOf e.fileName with _ | ext
    · rw [promptOfEntry_ext_none env dir exclude e hf hext]
      constructor
      · intro h
        cases h
      · rintro ⟨_, ⟨ext', hext', _⟩, _⟩
        cases hext'
    · by_cases hmd : eqIgnoreAsciiCase ext "md" = true
      · by_cases hex : exclude.contains (stemOf e.fileName) = true
        · rw [promptOfEntry_excluded env dir exclude e ext hf hext hmd hex]
          constructor
          · intro h
            cases h
          · rintro ⟨_, _, hname, hcon, _, _⟩
            rw [hname, hex] at hcon
            cases hcon
        · rw [Bool.not_eq_true] at hex
          rcases hr : env.readFile (dir ++ [e.fileName]) with _ | content
          · rw [promptOfEntry_read_none env dir exclude e ext hf hext hmd hex hr]
            constructor
            · intro h
              cases h
            · rintro ⟨_, _, hname, _, hread, _⟩
              cases hread
          · rw [promptOfEntry_read_some env dir exclude e ext content hf hext hmd hex hr]
            constructor
            · intro h
              rw [Option.some.injEq] at h
              rw [← h]
              exact ⟨hf, ⟨ext, rfl, hmd⟩, rfl, hex, rfl, rfl⟩
            · rintro ⟨_, _, hname, _, hread, hpath⟩
              rcases p with ⟨pn, pp, pc⟩
              simp only at hname hread hpath
              rw [Option.some.injEq] at hread
              rw [Option.some.injEq]
              rw [hname, hpath, hread]
      · rw [Bool.not_eq_true] at hmd
        rw [promptOfEntry_not_md env dir exclude e ext hf hext hmd]
        constructor
        · intro h
          cases h
        · rintro ⟨_, ⟨ext', hext', hmd2⟩, _⟩
          rw [Option.some.injEq] at hext'
          rw [← hext'] at hmd2
          rw [hmd] at hmd2
          cases hmd2
  · rw [Bool.not_eq_true] at hf
    rw [promptOfEntry_not_file env dir exclude e hf]
    constructor
    · intro h
      cases h
    · rintro ⟨hf2, _⟩
      rw [hf] at hf2
      cases hf2

/-- Claim C5: prompt discovery returns exactly the entries for regular files
directly in the directory whose extension matches `md` case-insensitively,
named by the file stem, omitting excluded names and unreadable contents;
a missing or unreadable directory yields the empty list; and the result is
sorted by name. -/
theorem C5_prompt_discovery (env : Env) (dir : List String) (exclude : List String) :
    (env.readDir dir = none → discover_prompts_in_excluding env dir exclude = [])
    ∧ (∀ entries : List DirEntry, env.readDir dir = some entries →
        ∀ p : CustomPrompt,
          (p ∈ discover_prompts_in_excluding env dir exclude ↔
            ∃ e, e ∈ entries ∧ (e.isFile = true
              ∧ (∃ ext, extensionOf e.fileName = some ext ∧ eqIgnoreAsciiCase ext "md" = true)
              ∧ p.name = stemOf e.fileName
              ∧ exclude.contains p.name = false
              ∧ env.readFile (dir ++ [e.fileName]) = some p.content
              ∧ p.path = dir ++ [e.fileName])))
    ∧ (discover_prompts_in_excluding env dir exclude).Pairwise
        (fun a b => strLe a.name b.name = true) := by
  refine ⟨?_, ?_, ?_⟩
  · intro h
    simp only [discover_prompts_in_excluding, h]
  · intro entries h p
    simp only [discover_prompts_in_excluding, h]
    rw [mem_sortBy, List.mem_filterMap]
    constructor
    · rintro ⟨e, he, hpe⟩
      exact ⟨e, he, (promptOfEntry_eq_some_iff env dir exclude e p).mp hpe⟩
    · rintro ⟨e, he, hconj⟩
      exact ⟨e, he, (promptOfEntry_eq_some_iff env dir exclude e p).mpr hconj⟩
  · rcases h : env.readDir dir with _ | entries
    · simp only [discover_prompts_in_excluding, h]
      exact List.Pairwise.nil
    · simp only [discover_prompts_in_excluding, h]
      exact pairwise_sortBy (fun a b : CustomPrompt => strLe a.name b.name)
        (fun a b : CustomPrompt => strLe_total a.name b.name)
        (fun a b c : CustomPrompt => strLe_trans a.name b.name c.name) _

/-- Witness for C5 at the spec's example: `b.md` and `a.md` discover as
`["a", "b"]`, in that order, and membership follows from the theorem. -/
theorem C5_prompt_discovery_witness :
    (discover_prompts_in_excluding envPromptsDir ["d"] []).map (fun p => p.name) = ["a", "b"]
    ∧ (⟨"a", ["d", "a.md"], "A"⟩ : CustomPrompt) ∈
        discover_prompts_in_excluding envPromptsDir ["d"] [] := by
  refine ⟨by decide, ?_⟩
  exact ((C5_prompt_discovery envPromptsDir ["d"] []).2.1 entriesPromptsDir (by decide)
      ⟨"a", ["d", "a.md"], "A"⟩).mpr (by decide)

/-- Equation for the popup rows when the lowered query lacks the `agent`
literal: every agent is listed. -/
theorem set_query_rows_no_match (query : String) (agents : List AgentInfo)
    (hs : strStartsWith (strToLower query) "agent" = false) :
    set_query_rows query agents =
      sortBy (fun a b => strLe a.name b.name)
        (agents.map (fun a =>
          { name := a.name, match_indices := none, is_current := false
          , description := some a.description })) := by
  simp only [set_query_rows, hs]
  rw [if_neg Bool.false_ne_true]

/-- Equation for the popup rows when the remainder after `agent` is empty:
every agent is listed. -/
theorem set_query_rows_empty_rest (query : String) (agents : List AgentInfo)
    (hs : strStartsWith (strToLower query) "agent" = true)
    (h : trimStartColonSpace (strDrop (strToLower query) 5) = "") :
    set_query_rows query agents =
      sortBy (fun a b => strLe a.name b.name)
        (agents.map (fun a =>
          { name := a.name, match_indices := none, is_current := false
          , description := some a.description })) := by
  simp only [set_query_rows, hs, h, if_true]
  have hcond : (("" : String) == "") = true := rfl
  rw [if_pos hcond]

/-- Equation for the popup rows on a non-empty remainder: agents are
filtered by case-insensitive substring match on the name. -/
theorem set_query_rows_filtered (query : String) (agents : List AgentInfo)
    (hs : strStartsWith (strToLower query) "agent" = true)
    (h : trimStartColonSpace (strDrop (strToLower query) 5) ≠ "") :
    set_query_rows query agents =
      sortBy (fun a b => strLe a.name b.name)
        ((agents.filter (fun a =>
            strContains (strToLower a.name)
              (trimStartColonSpace (strDrop (strToLower query) 5)))).map (fun a =>
          { name := a.name
          , match_indices := highlight_indices a.name
              (trimStartColonSpace (strDrop (strToLower query) 5))
          , is_current := false, description := some a.description })) := by
  simp only [set_query_rows, hs, if_true]
  rw [if_neg (by simp [h])]

/-- Claim C9: the popup's query filtering honours the consumer contract: a
query `agent`, `agent:`, or `agent ` with no remainder lists every agent in
alphabetical order by name, and a non-empty remainder after the `agent`
prefix lists exactly the agents whose name contains the remainder
case-insensitively as a substring, also alphabetically. -/
theorem C9_popup_query_filtering :
    (∀ (q : String) (agents : List AgentInfo),
        (q = "agent" ∨ q = "agent:" ∨ q = "agent ") →
        ((set_query_rows q agents).map (fun r => (r.name, r.description))).Perm
            (agents.map (fun a => (a.name, some a.description)))
        ∧ (set_query_rows q agents).Pairwise (fun a b => strLe a.name b.name = true))
    ∧ (∀ (q : String) (agents : List AgentInfo),
        strStartsWith (strToLower q) "agent" = true →
        trimStartColonSpace (strDrop (strToLower q) 5) ≠ "" →
        ((set_query_rows q agents).map (fun r => r.name)).Perm
            ((agents.filter (fun a =>
                strContains (strToLower a.name)
                  (trimStartColonSpace (strDrop (strToLower q) 5)))).map (fun a => a.name))
        ∧ (set_query_rows q agents).Pairwise (fun a b => strLe a.name b.name = true)) := by
  constructor
  · intro q agents hq
    have heq : set_query_rows q agents =
        sortBy (fun a b => strLe a.name b.name)
          (agents.map (fun a =>
            { name := a.name, match_indices := none, is_current := false
            , description := some a.description })) := by
      rcases hq with rfl | rfl | rfl <;>
        exact set_query_rows_empty_rest _ agents (by decide) (by decide)
    rw [heq]
    constructor
    · refine ((perm_sortBy (fun a b : GenericDisplayRow => strLe a.name b.name) _).map
        (fun r : GenericDisplayRow => (r.name, r.description))).trans ?_
      rw [List.map_map]
      exact List.Perm.refl _
    · exact pairwise_sortBy (fun a b : GenericDisplayRow => strLe a.name b.name)
        (fun a b : GenericDisplayRow => strLe_total a.name b.name)
        (fun a b c : GenericDisplayRow => strLe_trans a.name b.name c.name) _
  · intro q agents hs hne
    rw [set_query_rows_filtered q agents hs hne]
    constructor
    · refine ((perm_sortBy (fun a b : GenericDisplayRow => strLe a.name b.name) _).map
        (fun r : GenericDisplayRow => r.name)).trans ?_
      rw [List.map_map]
      exact List.Perm.refl _
    · exact pairwise_sortBy (fun a b : GenericDisplayRow => strLe a.name b.name)
        (fun a b : GenericDisplayRow => strLe_total a.name b.name)
        (fun a b c : GenericDisplayRow => strLe_trans a.name b.name c.name) _

/-- Witness for C9: the sample listing under the three query spellings and
an uppercase filtered query. -/
theorem C9_popup_query_filtering_witness :
    ((set_query_rows "agent" agentsSample).map (fun r => r.name) = ["general", "zeta"])
    ∧ ((set_query_rows "AGENT:ge" agentsSample).map (fun r => r.name) = ["general"])
    ∧ (set_query_rows "agent:" agentsSample).Pairwise
        (fun a b => strLe a.name b.name = true) := by
  refine ⟨by decide, by decide, ?_⟩
  exact (C9_popup_query_filtering.1 "agent:" agentsSample (Or.inr (Or.inl rfl))).2

/-- Equation for the project/personal merge when a personal directory is
provided. -/
theorem discover_merge_eq_some (env : Env) (project_root : List String)
    (exclude : List String) (d : List String) :
    discover_project_and_personal_prompts env project_root exclude (some d) =
      sortBy (fun a b => strLe a.name b.name)
        (AMap.values
          (AMap.orInsertAll
            (AMap.insertAll AMap.empty
              ((discover_prompts_in_excluding env (project_prompts_dir project_root)
                exclude).map (fun p => (p.name, p))))
            ((discover_prompts_in_excluding env d exclude).map (fun p => (p.name, p))))) := rfl

/-- Equation for the project/personal merge without a personal directory. -/
theorem discover_merge_eq_none (env : Env) (project_root : List String)
    (exclude : List String) :
    discover_project_and_personal_prompts env project_root exclude none =
      sortBy (fun a b => strLe a.name b.name)
        (AMap.values
          (AMap.insertAll AMap.empty
            ((discover_prompts_in_excluding env (project_prompts_dir project_root)
              exclude).map (fun p => (p.name, p))))) := rfl

/-- Claim C6: merging prompts across the project and personal directories
produces the name-keyed union in which a project entry always wins over a
personal entry of the same name, personal entries fill only the missing
names, and the final output is sorted by name. -/
theorem C6_prompt_merge (env : Env) (project_root : List String) (exclude : List String)
    (personal_dir : Option (List String))
    (hproj : ((discover_prompts_in_excluding env (project_prompts_dir project_root)
        exclude).map (fun p => p.name)).Nodup)
    (hpers : ∀ d, personal_dir = some d →
        ((discover_prompts_in_excluding env d exclude).map (fun p => p.name)).Nodup) :
    (∀ p ∈ discover_prompts_in_excluding env (project_prompts_dir project_root) exclude,
        p ∈ discover_project_and_personal_prompts env project_root exclude personal_dir)
    ∧ (∀ d, personal_dir = some d →
        ∀ q ∈ discover_prompts_in_excluding env d exclude,
          (∀ p ∈ discover_prompts_in_excluding env (project_prompts_dir project_root)
              exclude, p.name ≠ q.name) →
          q ∈ discover_project_and_personal_prompts env project_root exclude personal_dir)
    ∧ (∀ r ∈ discover_project_and_personal_prompts env project_root exclude personal_dir,
        r ∈ discover_prompts_in_excluding env (project_prompts_dir project_root) exclude
        ∨ (∃ d, personal_dir = some d
            ∧ r ∈ discover_prompts_in_excluding env d exclude
            ∧ ∀ p ∈ discover_prompts_in_excluding env (project_prompts_dir project_root)
                exclude, p.name ≠ r.name))
    ∧ (discover_project_and_personal_prompts env project_root exclude
        personal_dir).Pairwise (fun a b => strLe a.name b.name = true) := by
  have hprojKV : (((discover_prompts_in_excluding env (project_prompts_dir project_root)
      exclude).map (fun p => (p.name, p))).map Prod.fst).Nodup := by
    rw [List.map_map]
    exact hproj
  rcases hd : personal_dir with _ | d
  · have hnodup : AMap.NodupKeys (AMap.insertAll AMap.empty
        ((discover_prompts_in_excluding env (project_prompts_dir project_root)
          exclude).map (fun p => (p.name, p)))) :=
      AMap.nodupKeys_insertAll _ _ AMap.nodupKeys_nil
    refine ⟨?_, ?_, ?_, ?_⟩
    · intro p hp
      rw [discover_merge_eq_none env project_root exclude, mem_sortBy,
        mem_values_iff_get? _ hnodup p]
      refine ⟨p.name, ?_⟩
      rw [AMap.get?_insertAll _ _ _ hprojKV,
        get?_keyed_list (fun x : CustomPrompt => x.name),
        find?_key_of_mem_nodup (fun x : CustomPrompt => x.name) _ hproj p hp]
      rfl
    · intro d hdd
      cases hdd
    · intro r hr
      rw [discover_merge_eq_none env project_root exclude, mem_sortBy,
        mem_values_iff_get? _ hnodup r] at hr
      obtain ⟨k, hk⟩ := hr
      rw [AMap.get?_insertAll _ _ _ hprojKV,
        get?_keyed_list (fun x : CustomPrompt => x.name),
        show AMap.get? (AMap.empty : AMap CustomPrompt) k = none from rfl, orO_none_r] at hk
      exact Or.inl (List.mem_of_find?_eq_some hk)
    · rw [discover_merge_eq_none env project_root exclude]
      exact pairwise_sortBy (fun a b : CustomPrompt => strLe a.name b.name)
        (fun a b : CustomPrompt => strLe_total a.name b.name)
        (fun a b c : CustomPrompt => strLe_trans a.name b.name c.name) _
  · have hpersN := hpers d hd
    have hBNnodup : AMap.NodupKeys (AMap.orInsertAll
        (AMap.insertAll AMap.empty
          ((discover_prompts_in_excluding env (project_prompts_dir project_root)
            exclude).map (fun p => (p.name, p))))
        ((discover_prompts_in_excluding env d exclude).map (fun p => (p.name, p)))) :=
      AMap.nodupKeys_orInsertAll _ _ (AMap.nodupKeys_insertAll _ _ AMap.nodupKeys_nil)
    have hkeyed : KeyedByName (AMap.orInsertAll
        (AMap.insertAll AMap.empty
          ((discover_prompts_in_excluding env (project_prompts_dir project_root)
            exclude).map (fun p => (p.name, p))))
        ((discover_prompts_in_excluding env d exclude).map (fun p => (p.name, p)))) :=
      keyedByName_orInsertAll _ _
        (keyedByName_insertAll _ _ (fun kv hkv => absurd hkv (List.not_mem_nil kv)))
    have hget : ∀ n, AMap.get? (AMap.orInsertAll
        (AMap.insertAll AMap.empty
          ((discover_prompts_in_excluding env (project_prompts_dir project_root)
            exclude).map (fun p => (p.name, p))))
        ((discover_prompts_in_excluding env d exclude).map (fun p => (p.name, p)))) n =
        orO ((discover_prompts_in_excluding env (project_prompts_dir project_root)
            exclude).find? (fun x => x.name == n))
          ((discover_prompts_in_excluding env d exclude).find? (fun x => x.name == n)) := by
      intro n
      rw [AMap.get?_orInsertAll, AMap.get?_insertAll _ _ _ hprojKV,
        get?_keyed_list (fun x : CustomPrompt => x.name),
        get?_keyed_list (fun x : CustomPrompt => x.name),
        show AMap.get? (AMap.empty : AMap CustomPrompt) n = none from rfl, orO_none_r]
    have hmem : ∀ r : CustomPrompt,
        r ∈ discover_project_and_personal_prompts env project_root exclude (some d) ↔
          AMap.get? (AMap.orInsertAll
            (AMap.insertAll AMap.empty
              ((discover_prompts_in_excluding env (project_prompts_dir project_root)
                exclude).map (fun p => (p.name, p))))
            ((discover_prompts_in_excluding env d exclude).map
              (fun p => (p.name, p)))) r.name = some r := by
      intro r
      rw [discover_merge_eq_some env project_root exclude d, mem_sortBy,
        mem_values_iff_get? _ hBNnodup r]
      constructor
      · rintro ⟨k, hk⟩
        have hk' : k = r.name := hkeyed (k, r) (AMap.mem_of_get?_eq_some _ k r hk)
        rw [← hk']
        exact hk
      · intro hk
        exact ⟨r.name, hk⟩
    refine ⟨?_, ?_, ?_, ?_⟩
    · intro p hp
      rw [hmem p, hget p.name,
        find?_key_of_mem_nodup (fun x : CustomPrompt => x.name) _ hproj p hp]
      rfl
    · intro d' hdd q hq hdisj
      cases hdd
      rw [hmem q, hget q.name]
      have hnone : (discover_prompts_in_excluding env (project_prompts_dir project_root)
          exclude).find? (fun x => x.name == q.name) = none :=
        List.find?_eq_none.mpr (fun x hx => by simpa using hdisj x hx)
      rw [hnone, orO_none,
        find?_key_of_mem_nodup (fun x : CustomPrompt => x.name) _ hpersN q hq]
    · intro r hr
      rw [hmem r, hget r.name] at hr
      rcases hfp : (discover_prompts_in_excluding env (project_prompts_dir project_root)
          exclude).find? (fun x => x.name == r.name) with _ | v
      · rw [hfp, orO_none] at hr
        right
        refine ⟨d, rfl, List.mem_of_find?_eq_some hr, ?_⟩
        intro p hp hpn
        have hx := List.find?_eq_none.mp hfp p hp
        simp [hpn] at hx
      · rw [hfp, orO_some, Option.some.injEq] at hr
        left
        rw [← hr]
        exact List.mem_of_find?_eq_some hfp
    · rw [discover_merge_eq_some env project_root exclude d]
      exact pairwise_sortBy (fun a b : CustomPrompt => strLe a.name b.name)
        (fun a b : CustomPrompt => strLe_total a.name b.name)
        (fun a b c : CustomPrompt => strLe_trans a.name b.name c.name) _

/-- Witness for C6 at the spec's example: project `shared.md`/`x.md`,
personal `shared.md`/`y.md` merge to shared=project, x, y, sorted. -/
theorem C6_prompt_merge_witness :
    (discover_project_and_personal_prompts envMergePrompts ["r"] [] (some ["p"])).map
        (fun p => (p.name, p.content)) = [("shared", "project"), ("x", "x"), ("y", "y")]
    ∧ (⟨"shared", ["r", ".codex", "prompts", "shared.md"], "project"⟩ : CustomPrompt) ∈
        discover_project_and_personal_prompts envMergePrompts ["r"] [] (some ["p"]) := by
  refine ⟨by decide, ?_⟩
  exact (C6_prompt_merge envMergePrompts ["r"] [] (some ["p"]) (by decide)
      (fun d hd => by cases hd; decide)).1
    ⟨"shared", ["r", ".codex", "prompts", "shared.md"], "project"⟩ (by decide)

/-- Witness for the amended C1 at a concrete environment and name. -/
theorem C1_registry_merge_amended_witness :
    AMap.get? (AgentRegistry.new envPersonalGeneral).agents "general" =
      orO (AMap.get? (load_agents_from envPersonalGeneral
          (envPersonalGeneral.cwd ++ [".codex"])) "general")
        (orO (match AgentRegistry.get_agents_directory envPersonalGeneral with
              | some home => AMap.get? (load_agents_from envPersonalGeneral home) "general"
              | none => none)
          (if "general" = "general" then some generalSeedConfig else none)) :=
  C1_registry_merge_amended envPersonalGeneral "general"

/-- Witness for the amended C2 at a concrete in-base request. -/
theorem C2_path_guard_amended_witness :
    (AgentRegistry.validate_prompt_path envNoHome ["pr", ".codex"] "prompts/x.md" =
        .ok ["pr", ".codex", "prompts", "x.md"]) ↔
      (envNoHome.canonicalize (if strStartsWith "prompts/x.md" "/" then pathComps "prompts/x.md"
          else ["pr", ".codex"] ++ pathComps "prompts/x.md") =
          some ["pr", ".codex", "prompts", "x.md"]
        ∧ ∃ home, envNoHome.dirsHome = some home
            ∧ (((envNoHome.canonicalize ["pr", ".codex"]).getD ["pr", ".codex"]).isPrefixOf
                  ["pr", ".codex", "prompts", "x.md"] = true
              ∨ (home ++ [".codex"]).isPrefixOf ["pr", ".codex", "prompts", "x.md"] = true)) :=
  C2_path_guard_amended envNoHome ["pr", ".codex"] "prompts/x.md"
    ["pr", ".codex", "prompts", "x.md"]

/-- Witness for C8 at a concrete metadata map. -/
theorem C8_recursion_guard_witness :
    AgentRegistry.can_spawn_agents
        (AgentRegistry.mark_as_agent_context (AMap.empty : AMap String)) = false
    ∧ AgentRegistry.can_spawn_agents (AMap.empty : AMap String) = true :=
  ⟨(C8_recursion_guard (AMap.empty : AMap String)).2, by decide⟩
